import Mathlib

/-!
Verification of the N-body orbit simulator (seance3/orbits.py).

The development embeds the physical and numerical core of the simulator:
the orbital initializer `vitesse_orbitale`, the N-body force model
`equations_mouvement`, the trail buffer, the zoom and time-step smoothing,
and the world-to-screen coordinate transform of `play_orbit`.

Real ("float") arithmetic is embedded in ℝ.  Where a claim is about
division-by-zero behaviour, a second, instrumented embedding of the same
code is given in the Option monad (`hdiv` returns `none` exactly when the
source would divide by zero), so that "the code performs no division by
zero" is expressible as the checked run returning `some` of the plain value.
-/

namespace Orbits

open Filter

/-- Gravitational constant, the value of astropy's const.G in SI units. -/
noncomputable def G : ℝ := 6.6743e-11

/-- Embedding of np.hypot: hypot x y = sqrt (x^2 + y^2). -/
noncomputable def hypot (x y : ℝ) : ℝ := Real.sqrt (x ^ 2 + y ^ 2)

/-- The fields of a body dictionary used by the physics: mass and position (x, y). -/
structure Corps where
  mass : ℝ
  x : ℝ
  y : ℝ

/-- r0 = np.sqrt(x0**2 + y0**2) computed by vitesse_orbitale. -/
noncomputable def r0 (p : Corps) : ℝ := Real.sqrt (p.x ^ 2 + p.y ^ 2)

/-- v = np.sqrt(G * (M + m) / r0) computed by vitesse_orbitale. -/
noncomputable def v_orb (p e : Corps) : ℝ := Real.sqrt (G * (e.mass + p.mass) / r0 p)

/-- Embedding of vitesse_orbitale(planete, etoile): returns
(vx, vy) = (-y0 / r0 * v, x0 / r0 * v). -/
noncomputable def vitesse_orbitale (p e : Corps) : ℝ × ℝ :=
  (-p.y / r0 p * v_orb p e, p.x / r0 p * v_orb p e)

/-- Checked division: none exactly when the denominator is zero, i.e. when the
source's float division would produce inf or nan. -/
noncomputable def hdiv (a b : ℝ) : Option ℝ := if b = 0 then none else some (a / b)

/-- vitesse_orbitale with each of its three divisions instrumented by hdiv,
in source order: G*(M+m)/r0, then -y0/r0, then x0/r0. -/
noncomputable def vitesse_orbitale_checked (p e : Corps) : Option (ℝ × ℝ) :=
  (hdiv (G * (e.mass + p.mass)) (r0 p)).bind fun q =>
  (hdiv (-p.y) (r0 p)).bind fun a =>
  (hdiv p.x (r0 p)).bind fun b =>
  some (a * Real.sqrt q, b * Real.sqrt q)

/-- Python exception classes relevant to the frame loop's habitable-zone block. -/
inductive PyExc where
  | domainError
  | arithmeticError
  | otherError
deriving DecidableEq

/-- Python's int() applied to a float: truncation toward zero. -/
noncomputable def trunc (x : ℝ) : ℤ := if 0 ≤ x then ⌊x⌋ else ⌈x⌉

/-- The habitable-zone block of each frame of play_orbit: the caller-supplied
function's outcome (a radius pair, or a raised exception) is consumed inside
try/except; on success the pixel radii int(r * SCALE * zoom) are produced, and
on ANY exception the except-clause raises an ArithmeticError in its place. -/
noncomputable def zone_habitable_frame (res : Except PyExc (ℝ × ℝ)) (scale zoom : ℝ) :
    Except PyExc (ℤ × ℤ) :=
  match res with
  | .ok (ri, re) => .ok (trunc (ri * scale * zoom), trunc (re * scale * zoom))
  | .error _ => .error .arithmeticError

/-- The result record of scipy's solve_ivp as consumed by play_orbit: the
success flag and the final column sol.y[:, -1]. -/
structure IvpSol where
  success : Bool
  yFinal : ℕ → ℝ

/-- Lines 308-309 of orbits.py: state = sol.y[:, -1], assigned without
consulting sol.success. -/
def frame_state_update (sol : IvpSol) (_state : ℕ → ℝ) : ℕ → ℝ := sol.yFinal

/-- One planet record's integrated fields after the per-frame write-back loop. -/
structure PlanetState where
  px : ℝ
  py : ℝ
  vx : ℝ
  vy : ℝ

/-- Lines 311-316 of orbits.py: planet i's position and speed are overwritten
from slots 4i..4i+3 of the state vector. -/
def update_planets (state : ℕ → ℝ) (n : ℕ) : List PlanetState :=
  (List.range n).map fun i => ⟨state (4 * i), state (4 * i + 1), state (4 * i + 2), state (4 * i + 3)⟩

/-- C3: for a planet at (x0, y0) with r0 > 0 and positive masses, vitesse_orbitale
returns exactly v * (-y0/r0, x0/r0) with v = sqrt (G (M+m) / r0); this velocity is
perpendicular to the radius vector and has magnitude v. -/
theorem C3_vitesse_orbitale (p e : Corps)
    (hr : 0 < r0 p) (_hm : 0 < p.mass) (_hM : 0 < e.mass) :
    vitesse_orbitale p e = (v_orb p e * (-p.y / r0 p), v_orb p e * (p.x / r0 p)) ∧
    p.x * (vitesse_orbitale p e).1 + p.y * (vitesse_orbitale p e).2 = 0 ∧
    hypot (vitesse_orbitale p e).1 (vitesse_orbitale p e).2 = v_orb p e := by
  have hrne : r0 p ≠ 0 := ne_of_gt hr
  have hsq : r0 p ^ 2 = p.x ^ 2 + p.y ^ 2 := Real.sq_sqrt (by positivity)
  have hv : 0 ≤ v_orb p e := Real.sqrt_nonneg _
  refine ⟨?_, ?_, ?_⟩
  · simp only [vitesse_orbitale, Prod.mk.injEq]
    exact ⟨by ring, by ring⟩
  · simp only [vitesse_orbitale]
    ring
  · simp only [vitesse_orbitale, hypot]
    have key : (-p.y / r0 p * v_orb p e) ^ 2 + (p.x / r0 p * v_orb p e) ^ 2
        = v_orb p e ^ 2 := by
      have h1 : (-p.y / r0 p * v_orb p e) ^ 2 + (p.x / r0 p * v_orb p e) ^ 2
          = v_orb p e ^ 2 * ((p.x ^ 2 + p.y ^ 2) / r0 p ^ 2) := by ring
      rw [h1, ← hsq, div_self (pow_ne_zero 2 hrne), mul_one]
    rw [key]
    exact Real.sqrt_sq hv

/-- Witness for C3 at the concrete planet (mass 1, position (3,4)) and star of mass 2. -/
theorem C3_vitesse_orbitale_witness :
    let p : Corps := ⟨1, 3, 4⟩
    let e : Corps := ⟨2, 0, 0⟩
    vitesse_orbitale p e = (v_orb p e * (-p.y / r0 p), v_orb p e * (p.x / r0 p)) ∧
    p.x * (vitesse_orbitale p e).1 + p.y * (vitesse_orbitale p e).2 = 0 ∧
    hypot (vitesse_orbitale p e).1 (vitesse_orbitale p e).2 = v_orb p e :=
  C3_vitesse_orbitale ⟨1, 3, 4⟩ ⟨2, 0, 0⟩
    (by simp only [r0]; exact Real.sqrt_pos.mpr (by norm_num))
    (by norm_num) (by norm_num)

/-- C4: placed exactly at the star's position (r0 = 0), vitesse_orbitale does not
raise a DomainError; it reaches a division by zero (float inf/nan in the source):
the checked run aborts at the first division. -/
theorem C4_vitesse_orbitale_divides_by_zero :
    vitesse_orbitale_checked ⟨1, 0, 0⟩ ⟨1, 0, 0⟩ = none := by
  have hr : r0 ⟨1, 0, 0⟩ = 0 := by
    simp [r0, Real.sqrt_eq_zero]
  simp [vitesse_orbitale_checked, hdiv, hr]

/-- C5: when the caller-supplied habitable-zone function raises a DomainError,
the frame block raises an ArithmeticError in its place — the exception is
replaced by a different exception type, not propagated unmodified. -/
theorem C5_domain_error_replaced (scale zoom : ℝ) :
    zone_habitable_frame (.error .domainError) scale zoom = .error .arithmeticError ∧
    (Except.error PyExc.arithmeticError : Except PyExc (ℤ × ℤ)) ≠ .error .domainError := by
  exact ⟨rfl, by simp⟩

/-- C6: a failed step (success = false) still overwrites the state vector and the
planet records with the solver's final column: with previous state identically 0
and a failed solution whose final column is identically 1, the committed state at
slot 0 is 1 (not the previous 0) and the planet record becomes (1,1,1,1). -/
theorem C6_failed_step_commits_state :
    (IvpSol.mk false (fun _ => 1)).success = false ∧
    frame_state_update ⟨false, fun _ => 1⟩ (fun _ => 0) 0 = 1 ∧
    (fun _ : ℕ => (0 : ℝ)) 0 = 0 ∧ (1 : ℝ) ≠ 0 ∧
    update_planets (frame_state_update ⟨false, fun _ => 1⟩ (fun _ => 0)) 1
      = [⟨1, 1, 1, 1⟩] := by
  refine ⟨rfl, rfl, rfl, by norm_num, ?_⟩
  simp [update_planets, frame_state_update, List.range_succ]

/-- One trail append of the frame loop (lines 372-374):
p["trail"].append((x, y)); if len(p["trail"]) > 400: p["trail"].pop(0). -/
def trailStep (trail : List (ℝ × ℝ)) (pos : ℝ × ℝ) : List (ℝ × ℝ) :=
  let t := trail ++ [pos]
  if 400 < t.length then t.tail else t

lemma trailStep_eq (t : List (ℝ × ℝ)) (p : ℝ × ℝ) (h : t.length ≤ 400) :
    trailStep t p = (t ++ [p]).drop (t.length + 1 - 400) := by
  have hlen : (t ++ [p]).length = t.length + 1 := by
    simp
  rcases lt_or_eq_of_le h with hlt | heq
  · have hcond : ¬ 400 < (t ++ [p]).length := by rw [hlen]; omega
    have h0 : t.length + 1 - 400 = 0 := by omega
    simp only [trailStep]
    rw [if_neg hcond, h0, List.drop_zero]
  · have hcond : 400 < (t ++ [p]).length := by rw [hlen]; omega
    have h1 : t.length + 1 - 400 = 1 := by omega
    simp only [trailStep]
    rw [if_pos hcond, h1, List.drop_one]

lemma foldl_trailStep (xs : List (ℝ × ℝ)) :
    ∀ t : List (ℝ × ℝ), t.length ≤ 400 →
      List.foldl trailStep t xs = (t ++ xs).drop (t.length + xs.length - 400) := by
  induction xs with
  | nil =>
    intro t ht
    simp only [List.foldl_nil, List.append_nil, List.length_nil, Nat.add_zero]
    rw [Nat.sub_eq_zero_of_le ht, List.drop_zero]
  | cons p rest ih =>
    intro t ht
    rw [List.foldl_cons, trailStep_eq t p ht]
    have hlen1 : ((t ++ [p]).drop (t.length + 1 - 400)).length
        = t.length + 1 - (t.length + 1 - 400) := by
      rw [List.length_drop]
      simp
    have hle1 : ((t ++ [p]).drop (t.length + 1 - 400)).length ≤ 400 := by
      rw [hlen1]; omega
    rw [ih _ hle1, hlen1]
    have hd1le : t.length + 1 - 400 ≤ (t ++ [p]).length := by
      simp only [List.length_append, List.length_cons, List.length_nil]
      omega
    rw [← List.drop_append_of_le_length hd1le, List.drop_drop]
    have hl : (t ++ [p]) ++ rest = t ++ p :: rest := by simp
    have hidx : (t.length + 1 - 400) + (t.length + 1 - (t.length + 1 - 400) + rest.length - 400)
        = t.length + (p :: rest).length - 400 := by
      simp only [List.length_cons]
      omega
    rw [hl, hidx]

/-- C7: the trail buffer keeps at most 400 positions; an append at capacity 400
evicts exactly the oldest entry (the list tail plus the new point, order kept);
500 successive appends from an empty trail leave exactly the 400 most recent
positions, in chronological order. -/
theorem C7_trail_buffer :
    (∀ (t : List (ℝ × ℝ)) (p : ℝ × ℝ), t.length ≤ 400 → (trailStep t p).length ≤ 400) ∧
    (∀ (t : List (ℝ × ℝ)) (p : ℝ × ℝ), t.length = 400 → trailStep t p = t.tail ++ [p]) ∧
    (∀ xs : List (ℝ × ℝ), xs.length = 500 → List.foldl trailStep [] xs = xs.drop 100) := by
  refine ⟨?_, ?_, ?_⟩
  · intro t p ht
    rw [trailStep_eq t p ht]
    simp only [List.length_drop, List.length_append, List.length_cons, List.length_nil]
    omega
  · intro t p ht
    rw [trailStep_eq t p (le_of_eq ht), ht]
    have h1 : (400 : ℕ) + 1 - 400 = 1 := by norm_num
    rw [h1, List.drop_append_of_le_length (by omega), List.drop_one]
  · intro xs hxs
    rw [foldl_trailStep xs [] (by simp)]
    simp [hxs]

/-- Witness for C7: a 400-point trail stays at 400 and drops its head on append;
500 appended points leave points 100..499. -/
theorem C7_trail_buffer_witness :
    (trailStep (List.replicate 400 ((0 : ℝ), (0 : ℝ))) (7, 7)).length ≤ 400 ∧
    trailStep (List.replicate 400 ((0 : ℝ), (0 : ℝ))) (7, 7)
      = (List.replicate 400 ((0 : ℝ), (0 : ℝ))).tail ++ [(7, 7)] ∧
    List.foldl trailStep [] (List.replicate 500 ((0 : ℝ), (0 : ℝ)))
      = (List.replicate 500 ((0 : ℝ), (0 : ℝ))).drop 100 :=
  ⟨C7_trail_buffer.1 _ _ (by rw [List.length_replicate]),
   C7_trail_buffer.2.1 _ _ (by rw [List.length_replicate]),
   C7_trail_buffer.2.2 _ (by rw [List.length_replicate])⟩

/-- Lower slider bound for the time step: dt_min = 3600 s. -/
noncomputable def dt_min : ℝ := 3600

/-- Upper slider bound for the time step: dt_max = 3600*24*7 s. -/
noncomputable def dt_max : ℝ := 3600 * 24 * 7

/-- The initial clamp of play_orbit (lines 201-204):
if dt > dt_max: dt = dt_max elif dt < dt_min: dt = dt_min. -/
noncomputable def clamp_dt (dt : ℝ) : ℝ :=
  if dt > dt_max then dt_max else if dt < dt_min then dt_min else dt

/-- The per-frame smoothing of line 300: dt += 0.2 * (dt_target - dt). -/
noncomputable def dt_update (target dt : ℝ) : ℝ := dt + 0.2 * (target - dt)

lemma dt_update_mem (tg d : ℝ) (hd : dt_min ≤ d ∧ d ≤ dt_max)
    (htg : dt_min ≤ tg ∧ tg ≤ dt_max) :
    dt_min ≤ dt_update tg d ∧ dt_update tg d ≤ dt_max := by
  unfold dt_update
  constructor <;> [linarith [hd.1, htg.1]; linarith [hd.2, htg.2]]

lemma foldl_dt_update (targets : List ℝ) :
    ∀ d : ℝ, dt_min ≤ d ∧ d ≤ dt_max → (∀ tg ∈ targets, dt_min ≤ tg ∧ tg ≤ dt_max) →
      dt_min ≤ targets.foldl (fun d tg => dt_update tg d) d ∧
        targets.foldl (fun d tg => dt_update tg d) d ≤ dt_max := by
  induction targets with
  | nil => intro d hd _; simpa using hd
  | cons tg rest ih =>
    intro d hd hall
    rw [List.foldl_cons]
    exact ih _ (dt_update_mem tg d hd (hall tg (by simp))) fun x hx => hall x (by simp [hx])

/-- C9: an out-of-range initial dt is clamped into [3600, 604800] before the first
frame (dt = 10 starts at 3600), the clamp always lands in range, and the per-frame
smoothing with in-range targets keeps dt within [3600, 604800] at every frame. -/
theorem C9_dt_bounds :
    clamp_dt 10 = 3600 ∧
    (∀ dt : ℝ, dt_min ≤ clamp_dt dt ∧ clamp_dt dt ≤ dt_max) ∧
    (∀ targets : List ℝ, (∀ tg ∈ targets, dt_min ≤ tg ∧ tg ≤ dt_max) →
      ∀ d0 : ℝ, dt_min ≤ targets.foldl (fun d tg => dt_update tg d) (clamp_dt d0) ∧
        targets.foldl (fun d tg => dt_update tg d) (clamp_dt d0) ≤ dt_max) := by
  have hbounds : ∀ dt : ℝ, dt_min ≤ clamp_dt dt ∧ clamp_dt dt ≤ dt_max := by
    intro dt
    unfold clamp_dt
    split_ifs with h1 h2
    · exact ⟨by norm_num [dt_min, dt_max], le_refl _⟩
    · exact ⟨le_refl _, by norm_num [dt_min, dt_max]⟩
    · push_neg at h1 h2
      exact ⟨h2, h1⟩
  refine ⟨?_, hbounds, ?_⟩
  · norm_num [clamp_dt, dt_min, dt_max]
  · intro targets hall d0
    exact foldl_dt_update targets (clamp_dt d0) (hbounds d0) hall

/-- Witness for C9: starting from the requested dt = 10 (clamped to 3600) and one
in-range target 86400, the smoothed dt stays in [3600, 604800]. -/
theorem C9_dt_bounds_witness :
    dt_min ≤ [(86400 : ℝ)].foldl (fun d tg => dt_update tg d) (clamp_dt 10) ∧
    [(86400 : ℝ)].foldl (fun d tg => dt_update tg d) (clamp_dt 10) ≤ dt_max :=
  C9_dt_bounds.2.2 [86400]
    (by intro tg htg; simp only [List.mem_singleton] at htg; subst htg
        norm_num [dt_min, dt_max]) 10

/-- The per-frame zoom smoothing of line 299: zoom += 0.15 * (zoom_target - zoom). -/
noncomputable def zoom_update (target z : ℝ) : ℝ := z + 0.15 * (target - z)

/-- Iterated zoom smoothing from z0 against a fixed target. -/
noncomputable def zoom_seq (target z0 : ℝ) : ℕ → ℝ
  | 0 => z0
  | k + 1 => zoom_update target (zoom_seq target z0 k)

lemma zoom_seq_closed (T z0 : ℝ) (k : ℕ) :
    zoom_seq T z0 k = T - 0.85 ^ k * (T - z0) := by
  induction k with
  | zero => simp only [zoom_seq]; ring
  | succ m ih => simp only [zoom_seq, zoom_update, ih]; ring

lemma zoom_seq_tendsto (T z0 : ℝ) :
    Tendsto (zoom_seq T z0) atTop (nhds T) := by
  have h85 : Tendsto (fun k : ℕ => (0.85 : ℝ) ^ k) atTop (nhds 0) :=
    tendsto_pow_atTop_nhds_zero_of_lt_one (by norm_num) (by norm_num)
  have h2 : Tendsto (fun k : ℕ => T - 0.85 ^ k * (T - z0)) atTop (nhds (T - 0 * (T - z0))) :=
    tendsto_const_nhds.sub (h85.mul_const _)
  rw [funext (zoom_seq_closed T z0)]
  simpa using h2

/-- C8: with a fixed target T, the zoom smoothing iteration starting below T is
strictly increasing, always strictly below T, and converges to T; starting above
T it is strictly decreasing, always strictly above T, and converges to T. -/
theorem C8_zoom_smoothing (T z0 : ℝ) :
    (z0 < T →
      (∀ k, zoom_seq T z0 k < zoom_seq T z0 (k + 1)) ∧
      (∀ k, zoom_seq T z0 k < T) ∧
      Tendsto (zoom_seq T z0) atTop (nhds T)) ∧
    (T < z0 →
      (∀ k, zoom_seq T z0 (k + 1) < zoom_seq T z0 k) ∧
      (∀ k, T < zoom_seq T z0 k) ∧
      Tendsto (zoom_seq T z0) atTop (nhds T)) := by
  constructor
  · intro h
    refine ⟨?_, ?_, zoom_seq_tendsto T z0⟩
    · intro k
      rw [zoom_seq_closed, zoom_seq_closed, pow_succ]
      have hp : (0 : ℝ) < 0.85 ^ k := pow_pos (by norm_num) k
      nlinarith [hp, h]
    · intro k
      rw [zoom_seq_closed]
      have hp : (0 : ℝ) < 0.85 ^ k := pow_pos (by norm_num) k
      nlinarith [hp, h]
  · intro h
    refine ⟨?_, ?_, zoom_seq_tendsto T z0⟩
    · intro k
      rw [zoom_seq_closed, zoom_seq_closed, pow_succ]
      have hp : (0 : ℝ) < 0.85 ^ k := pow_pos (by norm_num) k
      nlinarith [hp, h]
    · intro k
      rw [zoom_seq_closed]
      have hp : (0 : ℝ) < 0.85 ^ k := pow_pos (by norm_num) k
      nlinarith [hp, h]

/-- Witness for C8 at the spec's example zoom = 1.0, zoom_target = 80.0. -/
theorem C8_zoom_smoothing_witness :
    (∀ k, zoom_seq 80 1 k < zoom_seq 80 1 (k + 1)) ∧
    (∀ k, zoom_seq 80 1 k < 80) ∧
    Tendsto (zoom_seq 80 1) atTop (nhds 80) :=
  (C8_zoom_smoothing 80 1).1 (by norm_num)

/-- SCALE = 2e-10, the fixed meters-to-pixel constant of play_orbit. -/
noncomputable def SCALE : ℝ := 2e-10

/-- WIDTH of the window surface in pixels. -/
noncomputable def WIDTH : ℝ := 1200

/-- HEIGHT of the window surface in pixels. -/
noncomputable def HEIGHT : ℝ := 900

/-- Line 369 of orbits.py: sx = int((x - camera_center[0]) * SCALE * zoom + WIDTH/2). -/
noncomputable def screen_x (x cx zoom : ℝ) : ℤ :=
  trunc ((x - cx) * SCALE * zoom + WIDTH / 2)

/-- Line 370 of orbits.py: sy = int((y - camera_center[1]) * SCALE * zoom + HEIGHT/2). -/
noncomputable def screen_y (y cy zoom : ℝ) : ℤ :=
  trunc ((y - cy) * SCALE * zoom + HEIGHT / 2)

/-- Modelled from the spec: the inverse mapping of the coordinate transform through
the known SCALE, zoom and camera center, world_x = (screen_x - WIDTH/2)/(SCALE*zoom) + cx. -/
noncomputable def invert_x (sx : ℤ) (cx zoom : ℝ) : ℝ :=
  ((sx : ℝ) - WIDTH / 2) / (SCALE * zoom) + cx

/-- Modelled from the spec: inverse mapping for the y coordinate. -/
noncomputable def invert_y (sy : ℤ) (cy zoom : ℝ) : ℝ :=
  ((sy : ℝ) - HEIGHT / 2) / (SCALE * zoom) + cy

/-- C10 counterexample: at world_x = 2.5e9, camera center 0 and zoom 1, the affine
value is 600.5 but the produced screen coordinate is the truncated 600, so the
produced coordinate differs from the claimed affine value, and the inverse map
returns 0: off from the original world coordinate by 2.5e9 meters. -/
theorem C10_transform_counterexample :
    ((screen_x 2.5e9 0 1 : ℤ) : ℝ) ≠ (2.5e9 - 0) * SCALE * 1 + WIDTH / 2 ∧
    invert_x (screen_x 2.5e9 0 1) 0 1 = 0 ∧
    |invert_x (screen_x 2.5e9 0 1) 0 1 - 2.5e9| = 2.5e9 := by
  have hval : (2.5e9 - 0) * SCALE * 1 + WIDTH / 2 = 600.5 := by
    norm_num [SCALE, WIDTH]
  have hsx : screen_x 2.5e9 0 1 = 600 := by
    rw [screen_x, hval, trunc, if_pos (by norm_num)]
    norm_num
  refine ⟨?_, ?_, ?_⟩
  · rw [hsx, hval]
    norm_num
  · rw [hsx, invert_x]
    norm_num [SCALE, WIDTH]
  · rw [hsx, invert_x]
    norm_num [SCALE, WIDTH, abs_of_nonpos]

lemma abs_trunc_sub_le (x : ℝ) : |(trunc x : ℝ) - x| ≤ 1 := by
  unfold trunc
  split_ifs with h
  · rw [abs_le]
    constructor
    · linarith [Int.lt_floor_add_one x]
    · linarith [Int.floor_le x]
  · rw [abs_le]
    constructor
    · linarith [Int.le_ceil x]
    · linarith [Int.ceil_lt_add_one x]

/-- C10 amended: the produced screen coordinates are the integer truncation toward
zero of (world - camera_center) * SCALE * zoom + (WIDTH/2, HEIGHT/2), and the
inverse mapping recovers the world coordinate within one pixel's worth of world
distance, 1 / (SCALE * zoom) — not within floating tolerance. -/
theorem C10_transform_amended (x y cx cy z : ℝ) (hz : 0 < z) :
    screen_x x cx z = trunc ((x - cx) * SCALE * z + WIDTH / 2) ∧
    screen_y y cy z = trunc ((y - cy) * SCALE * z + HEIGHT / 2) ∧
    |invert_x (screen_x x cx z) cx z - x| ≤ 1 / (SCALE * z) ∧
    |invert_y (screen_y y cy z) cy z - y| ≤ 1 / (SCALE * z) := by
  have hSpos : (0 : ℝ) < SCALE := by norm_num [SCALE]
  have hS : (0 : ℝ) < SCALE * z := mul_pos hSpos hz
  have hSne : SCALE ≠ 0 := ne_of_gt hSpos
  have hzne : z ≠ 0 := ne_of_gt hz
  refine ⟨rfl, rfl, ?_, ?_⟩
  · have hinv : invert_x (screen_x x cx z) cx z - x
        = ((trunc ((x - cx) * SCALE * z + WIDTH / 2) : ℝ)
            - ((x - cx) * SCALE * z + WIDTH / 2)) / (SCALE * z) := by
      rw [invert_x, screen_x]
      field_simp
      ring
    rw [hinv, abs_div, abs_of_pos hS]
    exact div_le_div_of_nonneg_right (abs_trunc_sub_le _) hS.le
  · have hinv : invert_y (screen_y y cy z) cy z - y
        = ((trunc ((y - cy) * SCALE * z + HEIGHT / 2) : ℝ)
            - ((y - cy) * SCALE * z + HEIGHT / 2)) / (SCALE * z) := by
      rw [invert_y, screen_y]
      field_simp
      ring
    rw [hinv, abs_div, abs_of_pos hS]
    exact div_le_div_of_nonneg_right (abs_trunc_sub_le _) hS.le

/-- Witness for the amended C10 at world point (2.5e9, 1e9), camera center
(0, 0) and zoom 1. -/
theorem C10_transform_amended_witness :
    screen_x 2.5e9 0 1 = trunc ((2.5e9 - 0) * SCALE * 1 + WIDTH / 2) ∧
    screen_y 1e9 0 1 = trunc ((1e9 - 0) * SCALE * 1 + HEIGHT / 2) ∧
    |invert_x (screen_x 2.5e9 0 1) 0 1 - 2.5e9| ≤ 1 / (SCALE * 1) ∧
    |invert_y (screen_y 1e9 0 1) 0 1 - 1e9| ≤ 1 / (SCALE * 1) :=
  C10_transform_amended 2.5e9 1e9 0 0 1 (by norm_num)

/-- The x-acceleration accumulation of equations_mouvement (lines 95-111): the
star term -G*M_star*xi/r^3 is the initial value, and the loop over j adds
-G*m_j*(xi-xj)/rij^3, skipping j == i and skipping pairs with rij == 0. -/
noncomputable def accel_x (Mstar : ℝ) (masses : List ℝ) (st : ℕ → ℝ) (i : ℕ) : ℝ :=
  (List.range masses.length).foldl
    (fun a j =>
      if j = i then a
      else
        if hypot (st (4 * i) - st (4 * j)) (st (4 * i + 1) - st (4 * j + 1)) = 0 then a
        else a + -G * masses.getD j 0 * (st (4 * i) - st (4 * j)) /
          hypot (st (4 * i) - st (4 * j)) (st (4 * i + 1) - st (4 * j + 1)) ^ 3)
    (-G * Mstar * st (4 * i) / hypot (st (4 * i)) (st (4 * i + 1)) ^ 3)

/-- The y-acceleration accumulation of equations_mouvement, same structure. -/
noncomputable def accel_y (Mstar : ℝ) (masses : List ℝ) (st : ℕ → ℝ) (i : ℕ) : ℝ :=
  (List.range masses.length).foldl
    (fun a j =>
      if j = i then a
      else
        if hypot (st (4 * i) - st (4 * j)) (st (4 * i + 1) - st (4 * j + 1)) = 0 then a
        else a + -G * masses.getD j 0 * (st (4 * i + 1) - st (4 * j + 1)) /
          hypot (st (4 * i) - st (4 * j)) (st (4 * i + 1) - st (4 * j + 1)) ^ 3)
    (-G * Mstar * st (4 * i + 1) / hypot (st (4 * i)) (st (4 * i + 1)) ^ 3)

/-- Embedding of equations_mouvement(t, state, planetes, etoile): the state is a flat
vector with slots [4i, 4i+4) per planet; position-derivative slots receive the
velocity slots, acceleration slots the accumulated accelerations; slots at or
beyond 4n keep np.zeros_like's zero. -/
noncomputable def equations_mouvement (Mstar : ℝ) (masses : List ℝ) (st : ℕ → ℝ) (k : ℕ) : ℝ :=
  if k < 4 * masses.length then
    if k % 4 = 0 then st (k + 2)
    else if k % 4 = 1 then st (k + 2)
    else if k % 4 = 2 then accel_x Mstar masses st (k / 4)
    else accel_y Mstar masses st (k / 4)
  else 0

lemma foldl_add (f : ℕ → ℝ) (l : List ℕ) (init : ℝ) :
    l.foldl (fun a j => a + f j) init = init + (l.map f).sum := by
  induction l generalizing init with
  | nil => simp
  | cons x xs ih => simp only [List.foldl_cons, List.map_cons, List.sum_cons, ih]; ring

lemma sum_map_range (f : ℕ → ℝ) (n : ℕ) :
    ((List.range n).map f).sum = ∑ j ∈ Finset.range n, f j := by
  induction n with
  | zero => simp
  | succ m ih => rw [List.range_succ, Finset.sum_range_succ]; simp [ih]

lemma accel_x_eq (Mstar : ℝ) (masses : List ℝ) (st : ℕ → ℝ) (i : ℕ) :
    accel_x Mstar masses st i
      = -G * Mstar * st (4 * i) / hypot (st (4 * i)) (st (4 * i + 1)) ^ 3
        + ∑ j ∈ Finset.range masses.length,
            (if j = i then 0
             else -G * masses.getD j 0 * (st (4 * i) - st (4 * j)) /
               hypot (st (4 * i) - st (4 * j)) (st (4 * i + 1) - st (4 * j + 1)) ^ 3) := by
  unfold accel_x
  have hfun : (fun (a : ℝ) (j : ℕ) =>
      if j = i then a
      else
        if hypot (st (4 * i) - st (4 * j)) (st (4 * i + 1) - st (4 * j + 1)) = 0 then a
        else a + -G * masses.getD j 0 * (st (4 * i) - st (4 * j)) /
          hypot (st (4 * i) - st (4 * j)) (st (4 * i + 1) - st (4 * j + 1)) ^ 3)
      = (fun (a : ℝ) (j : ℕ) => a +
          (if j = i then 0
           else -G * masses.getD j 0 * (st (4 * i) - st (4 * j)) /
             hypot (st (4 * i) - st (4 * j)) (st (4 * i + 1) - st (4 * j + 1)) ^ 3)) := by
    funext a j
    by_cases h1 : j = i
    · simp [h1]
    · by_cases h2 : hypot (st (4 * i) - st (4 * j)) (st (4 * i + 1) - st (4 * j + 1)) = 0
      · simp only [if_neg h1, if_pos h2, h2]
        norm_num
      · simp only [if_neg h1, if_neg h2]
  rw [hfun, foldl_add, sum_map_range]

lemma accel_y_eq (Mstar : ℝ) (masses : List ℝ) (st : ℕ → ℝ) (i : ℕ) :
    accel_y Mstar masses st i
      = -G * Mstar * st (4 * i + 1) / hypot (st (4 * i)) (st (4 * i + 1)) ^ 3
        + ∑ j ∈ Finset.range masses.length,
            (if j = i then 0
             else -G * masses.getD j 0 * (st (4 * i + 1) - st (4 * j + 1)) /
               hypot (st (4 * i) - st (4 * j)) (st (4 * i + 1) - st (4 * j + 1)) ^ 3) := by
  unfold accel_y
  have hfun : (fun (a : ℝ) (j : ℕ) =>
      if j = i then a
      else
        if hypot (st (4 * i) - st (4 * j)) (st (4 * i + 1) - st (4 * j + 1)) = 0 then a
        else a + -G * masses.getD j 0 * (st (4 * i + 1) - st (4 * j + 1)) /
          hypot (st (4 * i) - st (4 * j)) (st (4 * i + 1) - st (4 * j + 1)) ^ 3)
      = (fun (a : ℝ) (j : ℕ) => a +
          (if j = i then 0
           else -G * masses.getD j 0 * (st (4 * i + 1) - st (4 * j + 1)) /
             hypot (st (4 * i) - st (4 * j)) (st (4 * i + 1) - st (4 * j + 1)) ^ 3)) := by
    funext a j
    by_cases h1 : j = i
    · simp [h1]
    · by_cases h2 : hypot (st (4 * i) - st (4 * j)) (st (4 * i + 1) - st (4 * j + 1)) = 0
      · simp only [if_neg h1, if_pos h2, h2]
        norm_num
      · simp only [if_neg h1, if_neg h2]
  rw [hfun, foldl_add, sum_map_range]

/-- C1: the force model's derivative vector copies each planet's velocity components
into its position-derivative slots and sets the acceleration slots to the star term
-G*M_star*r_i/|r_i|^3 plus the sum over j ≠ i of -G*m_j*(r_i-r_j)/|r_i-r_j|^3; for a
single planet at nonzero radius the acceleration equals the two-body value, directed
toward the origin, with magnitude G*M_star/|r|^2. -/
theorem C1_equations_mouvement (Mstar : ℝ) (masses : List ℝ) (st : ℕ → ℝ) :
    (∀ i, i < masses.length →
      equations_mouvement Mstar masses st (4 * i) = st (4 * i + 2) ∧
      equations_mouvement Mstar masses st (4 * i + 1) = st (4 * i + 3) ∧
      equations_mouvement Mstar masses st (4 * i + 2)
        = -G * Mstar * st (4 * i) / hypot (st (4 * i)) (st (4 * i + 1)) ^ 3
          + ∑ j ∈ Finset.range masses.length,
              (if j = i then 0
               else -G * masses.getD j 0 * (st (4 * i) - st (4 * j)) /
                 hypot (st (4 * i) - st (4 * j)) (st (4 * i + 1) - st (4 * j + 1)) ^ 3) ∧
      equations_mouvement Mstar masses st (4 * i + 3)
        = -G * Mstar * st (4 * i + 1) / hypot (st (4 * i)) (st (4 * i + 1)) ^ 3
          + ∑ j ∈ Finset.range masses.length,
              (if j = i then 0
               else -G * masses.getD j 0 * (st (4 * i + 1) - st (4 * j + 1)) /
                 hypot (st (4 * i) - st (4 * j)) (st (4 * i + 1) - st (4 * j + 1)) ^ 3)) ∧
    (masses.length = 1 → 0 < Mstar → 0 < hypot (st 0) (st 1) →
      equations_mouvement Mstar masses st 2
        = -(G * Mstar / hypot (st 0) (st 1) ^ 3) * st 0 ∧
      equations_mouvement Mstar masses st 3
        = -(G * Mstar / hypot (st 0) (st 1) ^ 3) * st 1 ∧
      hypot (equations_mouvement Mstar masses st 2) (equations_mouvement Mstar masses st 3)
        = G * Mstar / hypot (st 0) (st 1) ^ 2) := by
  have hmain : ∀ i, i < masses.length →
      equations_mouvement Mstar masses st (4 * i) = st (4 * i + 2) ∧
      equations_mouvement Mstar masses st (4 * i + 1) = st (4 * i + 3) ∧
      equations_mouvement Mstar masses st (4 * i + 2)
        = -G * Mstar * st (4 * i) / hypot (st (4 * i)) (st (4 * i + 1)) ^ 3
          + ∑ j ∈ Finset.range masses.length,
              (if j = i then 0
               else -G * masses.getD j 0 * (st (4 * i) - st (4 * j)) /
                 hypot (st (4 * i) - st (4 * j)) (st (4 * i + 1) - st (4 * j + 1)) ^ 3) ∧
      equations_mouvement Mstar masses st (4 * i + 3)
        = -G * Mstar * st (4 * i + 1) / hypot (st (4 * i)) (st (4 * i + 1)) ^ 3
          + ∑ j ∈ Finset.range masses.length,
              (if j = i then 0
               else -G * masses.getD j 0 * (st (4 * i + 1) - st (4 * j + 1)) /
                 hypot (st (4 * i) - st (4 * j)) (st (4 * i + 1) - st (4 * j + 1)) ^ 3) := by
    intro i hi
    refine ⟨?_, ?_, ?_, ?_⟩
    · unfold equations_mouvement
      rw [if_pos (by omega), if_pos (by omega)]
    · unfold equations_mouvement
      rw [if_pos (by omega), if_neg (by omega), if_pos (by omega)]
    · unfold equations_mouvement
      rw [if_pos (by omega), if_neg (by omega), if_neg (by omega), if_pos (by omega)]
      have hdiv4 : (4 * i + 2) / 4 = i := by omega
      rw [hdiv4, accel_x_eq]
    · unfold equations_mouvement
      rw [if_pos (by omega), if_neg (by omega), if_neg (by omega), if_neg (by omega)]
      have hdiv4 : (4 * i + 3) / 4 = i := by omega
      rw [hdiv4, accel_y_eq]
  refine ⟨hmain, ?_⟩
  intro hlen hM hr
  have h0 := hmain 0 (by omega)
  have hax : equations_mouvement Mstar masses st 2
      = -(G * Mstar / hypot (st 0) (st 1) ^ 3) * st 0 := by
    have := h0.2.2.1
    norm_num [hlen, Finset.sum_range_one] at this
    rw [this]
    ring
  have hay : equations_mouvement Mstar masses st 3
      = -(G * Mstar / hypot (st 0) (st 1) ^ 3) * st 1 := by
    have := h0.2.2.2
    norm_num [hlen, Finset.sum_range_one] at this
    rw [this]
    ring
  refine ⟨hax, hay, ?_⟩
  rw [hax, hay]
  set r := hypot (st 0) (st 1) with hrdef
  have hrne : r ≠ 0 := ne_of_gt hr
  have hsq : r ^ 2 = st 0 ^ 2 + st 1 ^ 2 := Real.sq_sqrt (by positivity)
  have hGM : 0 ≤ G * Mstar / r ^ 2 := by
    have hG : (0 : ℝ) < G := by norm_num [G]
    positivity
  have key : (-(G * Mstar / r ^ 3) * st 0) ^ 2 + (-(G * Mstar / r ^ 3) * st 1) ^ 2
      = (G * Mstar / r ^ 2) ^ 2 := by
    have h1 : (-(G * Mstar / r ^ 3) * st 0) ^ 2 + (-(G * Mstar / r ^ 3) * st 1) ^ 2
        = (G * Mstar / r ^ 3) ^ 2 * (st 0 ^ 2 + st 1 ^ 2) := by ring
    rw [h1, ← hsq]
    field_simp
    ring
  unfold hypot
  rw [key]
  exact Real.sqrt_sq hGM

/-- A one-planet test state: position (1, 0), velocity (5, 7). -/
noncomputable def stw : ℕ → ℝ :=
  fun k => if k = 0 then 1 else if k = 2 then 5 else if k = 3 then 7 else 0

/-- Witness for C1 with one planet of mass 3 at (1, 0) around a star of mass 2. -/
theorem C1_equations_mouvement_witness :
    equations_mouvement 2 [3] stw 0 = stw 2 ∧
    equations_mouvement 2 [3] stw 1 = stw 3 ∧
    hypot (equations_mouvement 2 [3] stw 2) (equations_mouvement 2 [3] stw 3)
      = G * 2 / hypot (stw 0) (stw 1) ^ 2 :=
  ⟨((C1_equations_mouvement 2 [3] stw).1 0 (by norm_num)).1,
   ((C1_equations_mouvement 2 [3] stw).1 0 (by norm_num)).2.1,
   ((C1_equations_mouvement 2 [3] stw).2 rfl (by norm_num)
      (by unfold hypot
          rw [show stw 0 = 1 from rfl, show stw 1 = 0 from rfl]
          exact Real.sqrt_pos.mpr (by norm_num))).2.2⟩

/-- accel_x with both of its divisions instrumented by hdiv; the i == j skip and
the rij == 0 skip are exactly those of the source loop. -/
noncomputable def accel_x_checked (Mstar : ℝ) (masses : List ℝ) (st : ℕ → ℝ) (i : ℕ) :
    Option ℝ :=
  (List.range masses.length).foldl
    (fun a j =>
      if j = i then a
      else
        if hypot (st (4 * i) - st (4 * j)) (st (4 * i + 1) - st (4 * j + 1)) = 0 then a
        else a.bind fun acc =>
          (hdiv (-G * masses.getD j 0 * (st (4 * i) - st (4 * j)))
            (hypot (st (4 * i) - st (4 * j)) (st (4 * i + 1) - st (4 * j + 1)) ^ 3)).bind
            fun tj => some (acc + tj))
    (hdiv (-G * Mstar * st (4 * i)) (hypot (st (4 * i)) (st (4 * i + 1)) ^ 3))

/-- accel_y with both of its divisions instrumented by hdiv. -/
noncomputable def accel_y_checked (Mstar : ℝ) (masses : List ℝ) (st : ℕ → ℝ) (i : ℕ) :
    Option ℝ :=
  (List.range masses.length).foldl
    (fun a j =>
      if j = i then a
      else
        if hypot (st (4 * i) - st (4 * j)) (st (4 * i + 1) - st (4 * j + 1)) = 0 then a
        else a.bind fun acc =>
          (hdiv (-G * masses.getD j 0 * (st (4 * i + 1) - st (4 * j + 1)))
            (hypot (st (4 * i) - st (4 * j)) (st (4 * i + 1) - st (4 * j + 1)) ^ 3)).bind
            fun tj => some (acc + tj))
    (hdiv (-G * Mstar * st (4 * i + 1)) (hypot (st (4 * i)) (st (4 * i + 1)) ^ 3))

lemma foldl_checked (st : ℕ → ℝ) (i : ℕ) (num : ℕ → ℝ) (l : List ℕ) :
    ∀ v : ℝ,
      l.foldl
        (fun a j =>
          if j = i then a
          else
            if hypot (st (4 * i) - st (4 * j)) (st (4 * i + 1) - st (4 * j + 1)) = 0 then a
            else a.bind fun acc =>
              (hdiv (num j)
                (hypot (st (4 * i) - st (4 * j)) (st (4 * i + 1) - st (4 * j + 1)) ^ 3)).bind
                fun tj => some (acc + tj))
        (some v)
      = some (l.foldl
          (fun a j =>
            if j = i then a
            else
              if hypot (st (4 * i) - st (4 * j)) (st (4 * i + 1) - st (4 * j + 1)) = 0 then a
              else a + num j /
                hypot (st (4 * i) - st (4 * j)) (st (4 * i + 1) - st (4 * j + 1)) ^ 3)
          v) := by
  induction l with
  | nil => intro v; rfl
  | cons j rest ih =>
    intro v
    simp only [List.foldl_cons]
    by_cases h1 : j = i
    · rw [if_pos h1, if_pos h1]
      exact ih v
    · by_cases h2 : hypot (st (4 * i) - st (4 * j)) (st (4 * i + 1) - st (4 * j + 1)) = 0
      · rw [if_neg h1, if_pos h2, if_neg h1, if_pos h2]
        exact ih v
      · rw [if_neg h1, if_neg h2, if_neg h1, if_neg h2]
        have hstep : (some v).bind (fun acc =>
            (hdiv (num j)
              (hypot (st (4 * i) - st (4 * j)) (st (4 * i + 1) - st (4 * j + 1)) ^ 3)).bind
              fun tj => some (acc + tj))
            = some (v + num j /
                hypot (st (4 * i) - st (4 * j)) (st (4 * i + 1) - st (4 * j + 1)) ^ 3) := by
          unfold hdiv
          rw [if_neg (pow_ne_zero 3 h2)]
          rfl
        rw [hstep]
        exact ih _

lemma accel_x_checked_eq (Mstar : ℝ) (masses : List ℝ) (st : ℕ → ℝ) (i : ℕ)
    (hr : hypot (st (4 * i)) (st (4 * i + 1)) ≠ 0) :
    accel_x_checked Mstar masses st i = some (accel_x Mstar masses st i) := by
  unfold accel_x_checked accel_x
  have hinit : hdiv (-G * Mstar * st (4 * i)) (hypot (st (4 * i)) (st (4 * i + 1)) ^ 3)
      = some (-G * Mstar * st (4 * i) / hypot (st (4 * i)) (st (4 * i + 1)) ^ 3) := by
    unfold hdiv
    rw [if_neg (pow_ne_zero 3 hr)]
  rw [hinit]
  exact foldl_checked st i
    (fun j => -G * masses.getD j 0 * (st (4 * i) - st (4 * j)))
    (List.range masses.length) _

lemma accel_y_checked_eq (Mstar : ℝ) (masses : List ℝ) (st : ℕ → ℝ) (i : ℕ)
    (hr : hypot (st (4 * i)) (st (4 * i + 1)) ≠ 0) :
    accel_y_checked Mstar masses st i = some (accel_y Mstar masses st i) := by
  unfold accel_y_checked accel_y
  have hinit : hdiv (-G * Mstar * st (4 * i + 1)) (hypot (st (4 * i)) (st (4 * i + 1)) ^ 3)
      = some (-G * Mstar * st (4 * i + 1) / hypot (st (4 * i)) (st (4 * i + 1)) ^ 3) := by
    unfold hdiv
    rw [if_neg (pow_ne_zero 3 hr)]
  rw [hinit]
  exact foldl_checked st i
    (fun j => -G * masses.getD j 0 * (st (4 * i + 1) - st (4 * j + 1)))
    (List.range masses.length) _

/-- C2: with every planet at nonzero distance from the origin and two distinct
planets occupying exactly the same position, every division the force model
performs has a nonzero denominator: the instrumented evaluation of each planet's
acceleration returns some of the plain value — no NaN or Inf is produced, the
coinciding pair's mutual contribution being skipped (zero force). -/
theorem C2_no_nan (Mstar : ℝ) (masses : List ℝ) (st : ℕ → ℝ) (a b : ℕ)
    (_hab : a ≠ b) (_ha : a < masses.length) (_hb : b < masses.length)
    (_hpos : st (4 * a) = st (4 * b) ∧ st (4 * a + 1) = st (4 * b + 1))
    (hr : ∀ k, k < masses.length → hypot (st (4 * k)) (st (4 * k + 1)) ≠ 0) :
    ∀ k, k < masses.length →
      accel_x_checked Mstar masses st k = some (accel_x Mstar masses st k) ∧
      accel_y_checked Mstar masses st k = some (accel_y Mstar masses st k) := by
  intro k hk
  exact ⟨accel_x_checked_eq Mstar masses st k (hr k hk),
         accel_y_checked_eq Mstar masses st k (hr k hk)⟩

/-- A two-planet test state: both planets at (1, 0) with zero velocities. -/
noncomputable def stw2 : ℕ → ℝ :=
  fun k => if k = 0 then 1 else if k = 4 then 1 else 0

/-- Witness for C2: two planets of mass 1 at the same position (1, 0). -/
theorem C2_no_nan_witness :
    accel_x_checked 1 [1, 1] stw2 0 = some (accel_x 1 [1, 1] stw2 0) ∧
    accel_y_checked 1 [1, 1] stw2 0 = some (accel_y 1 [1, 1] stw2 0) :=
  C2_no_nan 1 [1, 1] stw2 0 1 (by norm_num) (by norm_num) (by norm_num)
    ⟨rfl, rfl⟩
    (by
      intro k hk
      simp only [List.length_cons, List.length_nil] at hk
      interval_cases k
      · unfold hypot
        rw [show stw2 (4 * 0) = 1 from rfl, show stw2 (4 * 0 + 1) = 0 from rfl]
        exact ne_of_gt (Real.sqrt_pos.mpr (by norm_num))
      · unfold hypot
        rw [show stw2 (4 * 1) = 1 from rfl, show stw2 (4 * 1 + 1) = 0 from rfl]
        exact ne_of_gt (Real.sqrt_pos.mpr (by norm_num)))
    0 (by norm_num)

end Orbits
